import Mathlib

/-!
Verification of the literature-review message pipeline
(`backend/literature_review_service.py`).

Python strings are modelled as Lean `String`; the Python string methods the
service uses (`str.split`, `str.strip`, `str.join`, the `in` substring test)
are implemented below as executable functions over `String.data` so that the
embedding matches CPython semantics (leftmost non-overlapping split,
whitespace stripping at both ends, truthiness of the empty string).
-/

namespace LitReview

/-- Characters Python's `str.strip()` removes (the `str.isspace` set that can
occur in this pipeline's data). -/
def isPySpace (c : Char) : Bool :=
  c = ' ' || c = '\t' || c = '\n' || c = '\r' || c = '\x0b' || c = '\x0c'

/-- `str.strip()` on the character list: drop leading and trailing whitespace. -/
def stripList (l : List Char) : List Char :=
  ((l.dropWhile isPySpace).reverse.dropWhile isPySpace).reverse

/-- Python `s.strip()`. -/
def pyStrip (s : String) : String :=
  ⟨stripList s.data⟩

/-- Is `pat` a prefix of `s` (character-exact)? -/
def isPrefixList : List Char → List Char → Bool
  | [], _ => true
  | _ :: _, [] => false
  | a :: as, b :: bs => a = b && isPrefixList as bs

/-- Does `pat` occur as a contiguous substring of `s`?  (Python's `pat in s`.) -/
def isInfixList (pat : List Char) : List Char → Bool
  | [] => pat.isEmpty
  | c :: rest => isPrefixList pat (c :: rest) || isInfixList pat rest

/-- Python's `pat in s` substring test. -/
def strContains (s pat : String) : Bool :=
  isInfixList pat.data s.data

/-- Recursion worker for `splitList`; `fuel` only bounds the recursion depth
(any `fuel ≥ s.length` gives the same answer), keeping the definition
structurally recursive and hence evaluable inside the kernel. -/
def splitListF (sep : List Char) : Nat → List Char → List (List Char)
  | _, [] => [[]]
  | 0, s => [s]
  | fuel + 1, c :: cs =>
    if sep ≠ [] ∧ isPrefixList sep (c :: cs) = true then
      [] :: splitListF sep fuel ((c :: cs).drop sep.length)
    else
      match splitListF sep fuel cs with
      | [] => [[c]]
      | p :: ps => (c :: p) :: ps

/-- Python `s.split(sep)` for a non-empty separator: leftmost,
non-overlapping occurrences of `sep` delimit the parts. -/
def splitList (sep s : List Char) : List (List Char) :=
  splitListF sep s.length s

/-- Python `s.split(sep)`. -/
def pySplit (s sep : String) : List String :=
  (splitList sep.data s.data).map (fun l => ⟨l⟩)

/-- `List.intercalate` written as plain recursion, i.e. Python `sep.join(parts)`
at the character level. -/
def joinList (sep : List Char) : List (List Char) → List Char
  | [] => []
  | [p] => p
  | p :: q :: ps => p ++ sep ++ joinList sep (q :: ps)

/-- Python `sep.join(parts)`. -/
def pyJoin (sep : String) (parts : List String) : String :=
  ⟨joinList sep.data (parts.map String.data)⟩

/-! ### Content classifiers (`is_function_call_message`, `is_raw_json_data`)

A value handed to a classifier may be any Python object; the code guards with
`if not content or not isinstance(content, str)`.  `PyVal.other` stands for
every non-string argument. -/

inductive PyVal where
  | str (s : String)
  | other
deriving DecidableEq

/-- The fixed marker table of `is_function_call_message`
(`function_indicators` in the source). -/
def function_indicators : List String :=
  ["[FunctionCall(",
   "[FunctionExecutionResult(",
   "call_id=",
   "arguments=",
   "name=\x27arxive_search\x27",
   "name=\"arxive_search\"",
   "\"query\":",
   "\"max_result\":",
   "pdf_url",
   "published",
   "authors"]

/-- The fixed marker table of `is_raw_json_data` (`json_indicators`). -/
def json_indicators : List String :=
  ["\x27title\x27:",
   "\x27authors\x27:",
   "\x27published\x27:",
   "\x27summary\x27:",
   "\x27pdf_url\x27:",
   "\x7b\x27title\x27:",
   "\x7b\"title\":"]

/-- `LiteratureReviewService.is_function_call_message` on a string argument
(the `not content` guard makes the empty string map to `False`). -/
def is_function_call_message (content : String) : Bool :=
  if content = "" then false
  else function_indicators.any (fun ind => strContains content ind)

/-- `is_function_call_message` on an arbitrary Python value: the
`isinstance(content, str)` guard rejects every non-string. -/
def is_function_call_message_val : PyVal → Bool
  | .str s => is_function_call_message s
  | .other => false

/-- `LiteratureReviewService.is_raw_json_data` on a string argument. -/
def is_raw_json_data (content : String) : Bool :=
  if content = "" then false
  else json_indicators.any (fun ind => strContains content ind)

/-- `is_raw_json_data` on an arbitrary Python value. -/
def is_raw_json_data_val : PyVal → Bool
  | .str s => is_raw_json_data s
  | .other => false

/-! ### `extract_final_review_only` -/

/-- The line loop of `extract_final_review_only`: `started` is
`review_started`, `acc` is `review_lines`.  Each iteration first rebinds
`line = line.strip()`, exactly as the source does. -/
def extractGo (started : Bool) (acc : List String) : List String → List String
  | [] => acc
  | l :: rest =>
    let line := pyStrip l
    if started = false ∧ line = "" then
      extractGo started acc rest
    else if started = false ∧
        (strContains line "Literature Review:" = true ∨
         strContains line "Key Papers" = true ∨
         (line ≠ "" ∧ is_function_call_message line = false ∧
          is_raw_json_data line = false)) then
      extractGo true (acc ++ [line]) rest
    else if started = true then
      extractGo started (acc ++ [line]) rest
    else
      extractGo started acc rest

/-- `LiteratureReviewService.extract_final_review_only`. -/
def extract_final_review_only (content : String) : String :=
  if content = "" then ""
  else pyStrip (pyJoin "\n" (extractGo false [] (pySplit content "\n")))

/-! ### `clean_content` -/

/-- The section loop of `clean_content`: `seen` is the `seen_content` set
(membership is all the source uses, so a list model is faithful); the result
is `clean_sections` in order. -/
def cleanLoop (seen : List String) : List String → List String
  | [] => []
  | sec :: rest =>
    let s := pyStrip sec
    if s = "" then cleanLoop seen rest
    else if is_function_call_message s = true ∨ is_raw_json_data s = true then
      cleanLoop seen rest
    else if s ∈ seen then cleanLoop seen rest
    else s :: cleanLoop (s :: seen) rest

/-- The `clean_sections` list computed by `clean_content` for a given input:
the sections the aggregation retains, in order. -/
def clean_sections (content : String) : List String :=
  cleanLoop [] (pySplit content "\n\n")

/-- `LiteratureReviewService.clean_content`. -/
def clean_content (content : String) : String :=
  if content = "" then ""
  else
    let cleaned := pyJoin "\n\n" (clean_sections content)
    let finalReview := extract_final_review_only cleaned
    if finalReview ≠ "" then finalReview else cleaned

/-! ### `extract_message_content`

A raw stream message is duck-typed in Python; the model declares the probed
attributes explicitly.  `none` is an absent attribute; `some ""` is a present
but falsy one (both are skipped by the source's `hasattr(...) and msg.x`
tests).  The nested `messages` / `inner_messages` attributes are modelled in
their list shape (the shape the recursion descends into); an absent or empty
list attribute is `[]`. -/

inductive Msg where
  | mk (content summary text message : Option String)
       (messages inner_messages : List Msg) : Msg

/-- Python truthiness of an optional string attribute. -/
def optTruthy : Option String → Bool
  | some s => s != ""
  | none => false

/-- The value of an optional string attribute (`str(x)` of a string is
itself). -/
def optVal : Option String → String
  | some s => s
  | none => ""

mutual
/-- Size measure on messages, used as recursion fuel. -/
def msgSize : Msg → Nat
  | .mk _ _ _ _ msgs inner => 1 + msgListSize msgs + msgListSize inner

/-- Size measure on message lists. -/
def msgListSize : List Msg → Nat
  | [] => 0
  | m :: ms => 1 + msgSize m + msgListSize ms
end

/-- Recursion worker for `extract_message_content`; `fuel` only bounds the
recursion depth (any `fuel ≥ msgSize m` gives the same answer), keeping the
definition structurally recursive and kernel-evaluable.  `msg.messages[-1]`
on a non-empty list is its `getLast?`. -/
def extractF : Nat → Msg → String
  | 0, _ => ""
  | fuel + 1, .mk c s t m msgs inner =>
    if optTruthy c = true then optVal c
    else if optTruthy s = true then optVal s
    else
      match msgs.getLast? with
      | some lastMsg => extractF fuel lastMsg
      | none =>
        match inner.getLast? with
        | some lastMsg => extractF fuel lastMsg
        | none =>
          if optTruthy t = true then optVal t
          else if optTruthy m = true then optVal m
          else ""

/-- `LiteratureReviewService.extract_message_content`. -/
def extract_message_content (m : Msg) : String :=
  extractF (msgSize m) m

/-! ### `run_review`

The orchestrator model.  External collaborators are parameters: team
construction is a function of the model name and the service's stored API key
that either returns a team or raises; a team's `run_stream(task)` yields a
finite message list and then either terminates normally or raises (carrying
the exception's `str(e)` text).  Wall-clock time is an ambient parameter
`elapsed` (the value of `time.time() - start_time` at return), and the float
percentages, all integral literals in the source, are carried as naturals.
The returned event list is the sequence of `ReviewProgress` values passed to
`progress_callback` when one is supplied. -/

inductive ReviewStatus where
  | initializing | searching | summarizing | completed | error
deriving DecidableEq

/-- `ReviewProgress` (the dataclass's `timestamp` is presentation-only and
not modelled). -/
structure ReviewProgress where
  status : ReviewStatus
  message : String
  progress_percent : Nat
deriving DecidableEq

/-- `ReviewConfig`. -/
structure ReviewConfig where
  topic : String
  max_results : Int := 5
  model_name : String := "deepseek/deepseek-chat"
  max_turns : Int := 2
  api_key : Option String := none
deriving DecidableEq

/-- `ReviewResult`. -/
structure ReviewResult where
  success : Bool
  content : String := ""
  error_message : String := ""
  execution_time : Nat := 0
  config : Option ReviewConfig := none
  papers_found : Int := 0
deriving DecidableEq

/-- The opaque agent team: `run_stream(task)` yields its messages in order
and then either finishes (`none`) or raises (`some excText`). -/
structure Team where
  run_stream : String → List Msg × Option String

/-- The `async for` loop of `run_review`: returns the collected non-empty
extracted contents (`all_messages`) and the progress events emitted inside
the loop, given the incoming `message_count`. -/
def consumeLoop (count : Nat) : List Msg → List String × List ReviewProgress
  | [] => ([], [])
  | m :: rest =>
    let newCount := count + 1
    let content := extract_message_content m
    let ev : List ReviewProgress :=
      if newCount = 1 then [⟨.searching, "Papers found, starting analysis...", 60⟩]
      else [⟨.summarizing, "Generating final review...", 80⟩]
    let (cs, evs) := consumeLoop newCount rest
    ((if content ≠ "" then [content] else []) ++ cs, ev ++ evs)

/-- The task string handed to the team (`task` in `run_review`). -/
def review_task (config : ReviewConfig) : String :=
  "conduct a literature review on the topic - " ++ config.topic ++
    " and return exactly " ++ toString config.max_results ++ " papers"

/-- `LiteratureReviewService.run_review`: returns the emitted progress-event
sequence together with the `ReviewResult`. -/
def run_review (create_team : String → String → Except String Team)
    (service_api_key : String) (config : ReviewConfig) (elapsed : Nat) :
    List ReviewProgress × ReviewResult :=
  let ev0 : List ReviewProgress := [⟨.initializing, "Initializing agents...", 10⟩]
  match create_team config.model_name service_api_key with
  | .error e =>
      let msg := "Error during literature review: " ++ e
      (ev0 ++ [⟨.error, msg, 0⟩],
       { success := false, error_message := msg, execution_time := elapsed,
         config := some config })
  | .ok team =>
      let ev1 := ev0 ++
        [⟨.searching, "Searching for papers on \x27" ++ config.topic ++ "\x27...", 25⟩]
      let ev2 := ev1 ++ [⟨.summarizing, "Analyzing papers and generating review...", 50⟩]
      let strm := team.run_stream (review_task config)
      let loop := consumeLoop 0 strm.1
      match strm.2 with
      | some e =>
          let msg := "Error during literature review: " ++ e
          (ev2 ++ loop.2 ++ [⟨.error, msg, 0⟩],
           { success := false, error_message := msg, execution_time := elapsed,
             config := some config })
      | none =>
          let raw := pyJoin "\n\n" loop.1
          let cleaned := clean_content raw
          (ev2 ++ loop.2 ++
             [⟨.completed, "Literature review completed successfully!", 100⟩],
           { success := true, content := cleaned, execution_time := elapsed,
             config := some config, papers_found := config.max_results })

/-! ## Lemmas: boolean string tests versus Mathlib's prefix/infix relations -/

theorem isPrefixList_iff : ∀ pat s : List Char, isPrefixList pat s = true ↔ pat <+: s
  | [], s => by simp [isPrefixList, List.nil_prefix]
  | a :: as, [] => by simp [isPrefixList]
  | a :: as, b :: bs => by
    simp [isPrefixList, List.cons_prefix_cons, isPrefixList_iff as bs]

theorem isInfixList_iff (pat : List Char) : ∀ s, isInfixList pat s = true ↔ pat <:+: s
  | [] => by
    simp only [isInfixList, List.isEmpty_iff]
    constructor
    · rintro rfl; exact List.infix_refl []
    · intro h
      have := h.sublist.length_le
      simpa using List.eq_nil_of_length_eq_zero (Nat.le_zero.mp (by simpa using this))
  | c :: rest => by
    simp only [isInfixList, Bool.or_eq_true, isPrefixList_iff, isInfixList_iff pat rest,
      List.infix_cons_iff]

theorem strContains_iff (s pat : String) : strContains s pat = true ↔ pat.data <:+: s.data :=
  isInfixList_iff pat.data s.data

theorem isInfixList_false_of_not_infix {pat s : List Char} (h : ¬ pat <:+: s) :
    isInfixList pat s = false := by
  cases hb : isInfixList pat s with
  | false => rfl
  | true => exact absurd ((isInfixList_iff pat s).mp hb) h

/-! ## Lemmas: `stripList` (Python `str.strip`) -/

theorem dropWhile_prefix_eq {p : Char → Bool} {x l : List Char}
    (h : x <+: l.dropWhile p) : x.dropWhile p = x := by
  cases x with
  | nil => rfl
  | cons c x' =>
    obtain ⟨t, ht⟩ := h
    have hc : p c = false := by
      have := List.head?_dropWhile_not p l
      rw [← ht] at this
      simpa using this
    simp [List.dropWhile_cons, hc]

theorem dropWhile_idem {p : Char → Bool} (l : List Char) :
    (l.dropWhile p).dropWhile p = l.dropWhile p :=
  dropWhile_prefix_eq List.prefix_rfl

/-- The trailing-whitespace strip (`stripList` after the leading strip). -/
theorem stripTrail_prefix_self {p : Char → Bool} (y : List Char) :
    ((y.reverse.dropWhile p).reverse : List Char) <+: y := by
  have h : y.reverse.dropWhile p <:+ y.reverse := List.dropWhile_suffix p
  have := List.reverse_prefix.mpr h
  simpa using this

theorem stripList_infix (l : List Char) : stripList l <:+: l := by
  unfold stripList
  exact ((stripTrail_prefix_self (l.dropWhile isPySpace)).isInfix).trans
    (List.dropWhile_suffix isPySpace).isInfix

theorem stripList_idem (l : List Char) : stripList (stripList l) = stripList l := by
  unfold stripList
  rw [dropWhile_prefix_eq (stripTrail_prefix_self (l.dropWhile isPySpace)),
    List.reverse_reverse, dropWhile_idem]

theorem pyStrip_idem (s : String) : pyStrip (pyStrip s) = pyStrip s := by
  unfold pyStrip
  exact congrArg String.mk (stripList_idem s.data)

/-- The last character of a stripped non-empty string is not whitespace. -/
theorem stripList_getLast_not_space {l : List Char} {c : Char}
    (h : (stripList l).getLast? = some c) : isPySpace c = false := by
  unfold stripList at h
  rw [List.getLast?_reverse] at h
  have := List.head?_dropWhile_not isPySpace (l.dropWhile isPySpace).reverse
  rw [h] at this
  exact this

/-! ## Lemmas: `splitList` (Python `str.split`) -/

theorem splitListF_congr (sep : List Char) :
    ∀ f₁ f₂ s, s.length ≤ f₁ → s.length ≤ f₂ →
      splitListF sep f₁ s = splitListF sep f₂ s := by
  intro f₁
  induction f₁ with
  | zero =>
    intro f₂ s h₁ _
    have : s = [] := List.eq_nil_of_length_eq_zero (Nat.le_zero.mp h₁)
    subst this
    cases f₂ <;> rfl
  | succ f₁' ih =>
    intro f₂ s h₁ h₂
    cases s with
    | nil => cases f₂ <;> rfl
    | cons c cs =>
      cases f₂ with
      | zero => simp at h₂
      | succ f₂' =>
        simp only [splitListF]
        by_cases hcond : sep ≠ [] ∧ isPrefixList sep (c :: cs) = true
        · rw [if_pos hcond, if_pos hcond]
          have hlen : ((c :: cs).drop sep.length).length ≤ f₁' := by
            have hsep : 1 ≤ sep.length := by
              cases hsep' : sep with
              | nil => exact absurd hsep' hcond.1
              | cons a as => simp
            simp only [List.length_drop, List.length_cons] at *
            omega
          have hlen₂ : ((c :: cs).drop sep.length).length ≤ f₂' := by
            have hsep : 1 ≤ sep.length := by
              cases hsep' : sep with
              | nil => exact absurd hsep' hcond.1
              | cons a as => simp
            simp only [List.length_drop, List.length_cons] at *
            omega
          rw [ih _ _ hlen hlen₂]
        · rw [if_neg hcond, if_neg hcond]
          have hlen : cs.length ≤ f₁' := by simp at h₁; omega
          have hlen₂ : cs.length ≤ f₂' := by simp at h₂; omega
          rw [ih _ _ hlen hlen₂]

theorem splitList_nil (sep : List Char) : splitList sep [] = [[]] := rfl

theorem splitList_cons_pos {sep : List Char} {c : Char} {cs : List Char}
    (h : sep ≠ [] ∧ isPrefixList sep (c :: cs) = true) :
    splitList sep (c :: cs) = [] :: splitList sep ((c :: cs).drop sep.length) := by
  unfold splitList
  show splitListF sep (cs.length + 1) (c :: cs) = _
  rw [splitListF, if_pos h]
  congr 1
  apply splitListF_congr
  · have hsep : 1 ≤ sep.length := by
      cases hsep' : sep with
      | nil => exact absurd hsep' h.1
      | cons a as => simp
    simp only [List.length_drop, List.length_cons]
    omega
  · exact Nat.le_refl _

theorem splitList_cons_neg {sep : List Char} {c : Char} {cs : List Char}
    (h : ¬ (sep ≠ [] ∧ isPrefixList sep (c :: cs) = true)) :
    splitList sep (c :: cs) =
      match splitList sep cs with
      | [] => [[c]]
      | p :: ps => (c :: p) :: ps := by
  unfold splitList
  show splitListF sep (cs.length + 1) (c :: cs) = _
  rw [splitListF, if_neg h]

theorem splitList_ne_nil (sep s : List Char) : splitList sep s ≠ [] := by
  cases s with
  | nil => simp [splitList_nil]
  | cons c cs =>
    by_cases h : sep ≠ [] ∧ isPrefixList sep (c :: cs) = true
    · simp [splitList_cons_pos h]
    · rw [splitList_cons_neg h]
      cases splitList sep cs <;> simp

/-- The first part produced by a split is a prefix of the input. -/
theorem splitList_head_prefix (sep : List Char) :
    ∀ s p ps, splitList sep s = p :: ps → p <+: s := by
  intro s
  induction s with
  | nil =>
    intro p ps h
    rw [splitList_nil] at h
    cases h
    exact List.nil_prefix
  | cons c cs ih =>
    intro p ps h
    by_cases hcond : sep ≠ [] ∧ isPrefixList sep (c :: cs) = true
    · rw [splitList_cons_pos hcond] at h
      cases h
      exact List.nil_prefix
    · rw [splitList_cons_neg hcond] at h
      cases hq : splitList sep cs with
      | nil => exact absurd hq (splitList_ne_nil sep cs)
      | cons q qs =>
        rw [hq] at h
        cases h
        exact (List.cons_prefix_cons).mpr ⟨rfl, ih q _ hq⟩

/-- No part produced by a split contains the separator. -/
theorem splitList_no_sep {sep : List Char} (hsep : sep ≠ []) :
    ∀ (n : Nat) (s : List Char), s.length ≤ n →
      ∀ part ∈ splitList sep s, isInfixList sep part = false := by
  intro n
  induction n with
  | zero =>
    intro s hs part hp
    have : s = [] := List.eq_nil_of_length_eq_zero (Nat.le_zero.mp hs)
    subst this
    rw [splitList_nil] at hp
    simp only [List.mem_singleton] at hp
    subst hp
    simp [isInfixList, List.isEmpty_iff, hsep]
  | succ n ih =>
    intro s hs part hp
    cases s with
    | nil =>
      rw [splitList_nil] at hp
      simp only [List.mem_singleton] at hp
      subst hp
      simp [isInfixList, List.isEmpty_iff, hsep]
    | cons c cs =>
      by_cases hcond : sep ≠ [] ∧ isPrefixList sep (c :: cs) = true
      · rw [splitList_cons_pos hcond] at hp
        rcases List.mem_cons.mp hp with h | h
        · subst h
          simp [isInfixList, List.isEmpty_iff, hsep]
        · refine ih ((c :: cs).drop sep.length) ?_ part h
          have hsl : 1 ≤ sep.length := by
            cases hsep' : sep with
            | nil => exact absurd hsep' hsep
            | cons a as => simp
          simp only [List.length_drop, List.length_cons] at *
          omega
      · rw [splitList_cons_neg hcond] at hp
        cases hq : splitList sep cs with
        | nil => exact absurd hq (splitList_ne_nil sep cs)
        | cons q qs =>
          rw [hq] at hp
          have hcs : cs.length ≤ n := by
            simp only [List.length_cons] at hs
            omega
          rcases List.mem_cons.mp hp with h | h
          · subst h
            apply isInfixList_false_of_not_infix
            intro hinf
            rcases List.infix_cons_iff.mp hinf with hpre | hinf'
            · have hqcs : q <+: cs := splitList_head_prefix sep cs q qs hq
              have : sep <+: c :: cs :=
                hpre.trans ((List.cons_prefix_cons).mpr ⟨rfl, hqcs⟩)
              exact absurd ((isPrefixList_iff sep (c :: cs)).mpr this)
                (by simpa [hsep] using hcond)
            · have hqmem : q ∈ splitList sep cs := by rw [hq]; exact List.mem_cons_self q qs
              have := ih cs hcs q hqmem
              rw [(isInfixList_iff sep q).mpr hinf'] at this
              cases this
          · have hmem : part ∈ splitList sep cs := by
              rw [hq]; exact List.mem_cons_of_mem q h
            exact ih cs hcs part hmem

/-- Splitting a string that does not contain the separator yields it whole. -/
theorem splitList_of_no_sep {sep : List Char} :
    ∀ p : List Char, isInfixList sep p = false → splitList sep p = [p] := by
  intro p
  induction p with
  | nil => intro _; exact splitList_nil sep
  | cons c cs ih =>
    intro hinf
    have hnp : ¬ (sep ≠ [] ∧ isPrefixList sep (c :: cs) = true) := by
      rintro ⟨-, hpre⟩
      have : isInfixList sep (c :: cs) = true :=
        (isInfixList_iff _ _).mpr ((isPrefixList_iff _ _).mp hpre).isInfix
      rw [hinf] at this
      cases this
    rw [splitList_cons_neg hnp]
    have hcs : isInfixList sep cs = false := by
      apply isInfixList_false_of_not_infix
      intro h
      have : isInfixList sep (c :: cs) = true :=
        (isInfixList_iff _ _).mpr (List.infix_cons h)
      rw [hinf] at this
      cases this
    rw [ih hcs]

/-- The two-newline separator of the section split. -/
def nl2 : List Char := ['\n', '\n']

theorem nl2_ne_nil : nl2 ≠ [] := by simp [nl2]

/-- Splitting `p ++ "\n\n" ++ r` where `p` is non-empty, free of `"\n\n"` and
does not end in a newline peels off `p` as the first part. -/
theorem splitList_append_nl2 :
    ∀ (p r : List Char), p ≠ [] → isInfixList nl2 p = false →
      (∀ c, p.getLast? = some c → c ≠ '\n') →
      splitList nl2 (p ++ nl2 ++ r) = p :: splitList nl2 r := by
  intro p
  induction p with
  | nil => intro r h; exact absurd rfl h
  | cons c cs ih =>
    intro r _ hinf hlast
    cases cs with
    | nil =>
      have hc : c ≠ '\n' := hlast c rfl
      have hshape : ([c] ++ nl2 ++ r) = c :: '\n' :: '\n' :: r := by simp [nl2]
      rw [hshape]
      have hnp : ¬ (nl2 ≠ [] ∧ isPrefixList nl2 (c :: '\n' :: '\n' :: r) = true) := by
        rintro ⟨-, hpre⟩
        simp only [nl2, isPrefixList, Bool.and_eq_true, decide_eq_true_eq] at hpre
        exact hc hpre.1.symm
      rw [splitList_cons_neg hnp]
      have hstep : splitList nl2 ('\n' :: '\n' :: r) = [] :: splitList nl2 r := by
        have hpos : nl2 ≠ [] ∧ isPrefixList nl2 ('\n' :: '\n' :: r) = true := by
          refine ⟨nl2_ne_nil, ?_⟩
          simp [nl2, isPrefixList]
        have h := splitList_cons_pos hpos
        simpa [nl2] using h
      rw [hstep]
    | cons c₂ cs₂ =>
      have hshape : ((c :: c₂ :: cs₂) ++ nl2 ++ r) = c :: ((c₂ :: cs₂) ++ nl2 ++ r) := by
        simp
      rw [hshape]
      have hnp : ¬ (nl2 ≠ [] ∧ isPrefixList nl2 (c :: ((c₂ :: cs₂) ++ nl2 ++ r)) = true) := by
        rintro ⟨-, hpre⟩
        have hshape₂ : (c₂ :: cs₂) ++ nl2 ++ r = c₂ :: (cs₂ ++ nl2 ++ r) := by simp
        rw [hshape₂] at hpre
        simp only [nl2, isPrefixList, Bool.and_eq_true, decide_eq_true_eq] at hpre
        obtain ⟨h1, h2, -⟩ := hpre
        have : isInfixList nl2 (c :: c₂ :: cs₂) = true := by
          apply (isInfixList_iff _ _).mpr
          apply List.IsPrefix.isInfix
          rw [← h1, ← h2]
          exact (List.cons_prefix_cons).mpr ⟨rfl,
            (List.cons_prefix_cons).mpr ⟨rfl, List.nil_prefix⟩⟩
        rw [hinf] at this
        cases this
      rw [splitList_cons_neg hnp]
      have hrec : splitList nl2 ((c₂ :: cs₂) ++ nl2 ++ r) = (c₂ :: cs₂) :: splitList nl2 r := by
        apply ih r (by simp)
        · apply isInfixList_false_of_not_infix
          intro h
          have : isInfixList nl2 (c :: c₂ :: cs₂) = true :=
            (isInfixList_iff _ _).mpr (List.infix_cons h)
          rw [hinf] at this
          cases this
        · intro d hd
          exact hlast d (by rw [List.getLast?_cons_cons]; exact hd)
      rw [hrec]

/-- Join/split cancellation for `"\n\n"`-separated, `"\n\n"`-free parts not
ending in whitespace. -/
theorem splitList_joinList_nl2 :
    ∀ parts : List (List Char), parts ≠ [] →
      (∀ e ∈ parts, isInfixList nl2 e = false ∧ e ≠ [] ∧
        ∀ c, e.getLast? = some c → c ≠ '\n') →
      splitList nl2 (joinList nl2 parts) = parts := by
  intro parts
  induction parts with
  | nil => intro h; exact absurd rfl h
  | cons e rest ih =>
    intro _ hcond
    cases rest with
    | nil =>
      show splitList nl2 (joinList nl2 [e]) = [e]
      rw [joinList]
      exact splitList_of_no_sep e (hcond e (List.mem_singleton_self e)).1
    | cons e₂ rest₂ =>
      have he := hcond e (List.mem_cons_self e (e₂ :: rest₂))
      rw [joinList]
      rw [splitList_append_nl2 e (joinList nl2 (e₂ :: rest₂)) he.2.1 he.1 he.2.2]
      rw [ih (by simp) (fun x hx => hcond x (List.mem_cons_of_mem e hx))]

/-! ## Lemmas: the section loop of `clean_content` -/

theorem cleanLoop_sublist : ∀ (l : List String) (seen : List String),
    List.Sublist (cleanLoop seen l) (l.map pyStrip) := by
  intro l
  induction l with
  | nil => intro seen; simp [cleanLoop]
  | cons sec rest ih =>
    intro seen
    rw [cleanLoop]
    simp only [List.map_cons]
    by_cases h1 : pyStrip sec = ""
    · rw [if_pos h1]; exact (ih seen).cons _
    · rw [if_neg h1]
      by_cases h2 : is_function_call_message (pyStrip sec) = true ∨
          is_raw_json_data (pyStrip sec) = true
      · rw [if_pos h2]; exact (ih seen).cons _
      · rw [if_neg h2]
        by_cases h3 : pyStrip sec ∈ seen
        · rw [if_pos h3]; exact (ih seen).cons _
        · rw [if_neg h3]; exact (ih _).cons₂ _

theorem cleanLoop_mem : ∀ (l : List String) (seen : List String) (s : String),
    s ∈ cleanLoop seen l →
      s ∉ seen ∧ is_function_call_message s = false ∧ is_raw_json_data s = false ∧
      s ≠ "" ∧ ∃ sec ∈ l, s = pyStrip sec := by
  intro l
  induction l with
  | nil => intro seen s h; simp [cleanLoop] at h
  | cons sec rest ih =>
    intro seen s h
    rw [cleanLoop] at h
    by_cases h1 : pyStrip sec = ""
    · rw [if_pos h1] at h
      obtain ⟨h5, h6, h7, h8, sec', h9, h10⟩ := ih seen s h
      exact ⟨h5, h6, h7, h8, sec', List.mem_cons_of_mem _ h9, h10⟩
    · rw [if_neg h1] at h
      by_cases h2 : is_function_call_message (pyStrip sec) = true ∨
          is_raw_json_data (pyStrip sec) = true
      · rw [if_pos h2] at h
        obtain ⟨h5, h6, h7, h8, sec', h9, h10⟩ := ih seen s h
        exact ⟨h5, h6, h7, h8, sec', List.mem_cons_of_mem _ h9, h10⟩
      · rw [if_neg h2] at h
        by_cases h3 : pyStrip sec ∈ seen
        · rw [if_pos h3] at h
          obtain ⟨h5, h6, h7, h8, sec', h9, h10⟩ := ih seen s h
          exact ⟨h5, h6, h7, h8, sec', List.mem_cons_of_mem _ h9, h10⟩
        · rw [if_neg h3] at h
          rcases List.mem_cons.mp h with rfl | hmem
          · push_neg at h2
            exact ⟨h3, by simpa using h2.1, by simpa using h2.2, h1,
              sec, List.mem_cons_self _ _, rfl⟩
          · obtain ⟨h5, h6, h7, h8, sec', h9, h10⟩ := ih (pyStrip sec :: seen) s hmem
            exact ⟨fun hs => h5 (List.mem_cons_of_mem _ hs), h6, h7, h8,
              sec', List.mem_cons_of_mem _ h9, h10⟩

theorem cleanLoop_nodup : ∀ (l : List String) (seen : List String),
    (cleanLoop seen l).Nodup := by
  intro l
  induction l with
  | nil => intro seen; simp [cleanLoop]
  | cons sec rest ih =>
    intro seen
    rw [cleanLoop]
    by_cases h1 : pyStrip sec = ""
    · rw [if_pos h1]; exact ih seen
    · rw [if_neg h1]
      by_cases h2 : is_function_call_message (pyStrip sec) = true ∨
          is_raw_json_data (pyStrip sec) = true
      · rw [if_pos h2]; exact ih seen
      · rw [if_neg h2]
        by_cases h3 : pyStrip sec ∈ seen
        · rw [if_pos h3]; exact ih seen
        · rw [if_neg h3]
          refine List.nodup_cons.mpr ⟨?_, ih _⟩
          intro hmem
          exact (cleanLoop_mem rest (pyStrip sec :: seen) _ hmem).1
            (List.mem_cons_self _ _)

/-- On a list of already-clean sections (stripped, non-empty, not noise,
pairwise distinct, unseen) the loop is the identity. -/
theorem cleanLoop_id : ∀ (l : List String) (seen : List String),
    l.Nodup →
    (∀ s ∈ l, pyStrip s = s ∧ s ≠ "" ∧ is_function_call_message s = false ∧
      is_raw_json_data s = false ∧ s ∉ seen) →
    cleanLoop seen l = l := by
  intro l
  induction l with
  | nil => intro seen _ _; rfl
  | cons sec rest ih =>
    intro seen hnd hcond
    obtain ⟨hstrip, hne, hfc, hrj, hsn⟩ := hcond sec (List.mem_cons_self _ _)
    rw [cleanLoop, hstrip, if_neg hne, if_neg (by simp [hfc, hrj]), if_neg hsn]
    congr 1
    apply ih
    · exact (List.nodup_cons.mp hnd).2
    · intro s hs
      obtain ⟨h1, h2, h3, h4, h5⟩ := hcond s (List.mem_cons_of_mem _ hs)
      refine ⟨h1, h2, h3, h4, ?_⟩
      intro hmem
      rcases List.mem_cons.mp hmem with rfl | hmem'
      · exact (List.nodup_cons.mp hnd).1 hs
      · exact h5 hmem'

/-! ## Lemmas: properties of the retained sections -/

theorem string_eq_empty_of_data_nil {s : String} (h : s.data = []) : s = "" := by
  cases s
  simp only at h
  subst h
  rfl

/-- Every retained section is noise-free, non-empty, strip-fixed, contains no
blank-line separator and does not end in a newline. -/
theorem clean_sections_mem {content s : String} (h : s ∈ clean_sections content) :
    is_function_call_message s = false ∧ is_raw_json_data s = false ∧ s ≠ "" ∧
    pyStrip s = s ∧ isInfixList nl2 s.data = false ∧
    (∀ c, s.data.getLast? = some c → c ≠ '\n') := by
  obtain ⟨-, hfc, hrj, hne, sec, hsec, rfl⟩ := cleanLoop_mem _ _ _ h
  refine ⟨hfc, hrj, hne, pyStrip_idem sec, ?_, ?_⟩
  · obtain ⟨part, hpart, rfl⟩ := List.mem_map.mp hsec
    apply isInfixList_false_of_not_infix
    intro hinf
    have hsub : stripList part <:+: part := stripList_infix part
    have : nl2 <:+: part := by
      refine List.IsInfix.trans ?_ hsub
      simpa [pyStrip] using hinf
    have hns := splitList_no_sep nl2_ne_nil content.data.length content.data
      (Nat.le_refl _) part (by simpa [nl2] using hpart)
    rw [(isInfixList_iff _ _).mpr this] at hns
    cases hns
  · intro c hc
    have : isPySpace c = false := by
      apply @stripList_getLast_not_space sec.data c
      simpa [pyStrip] using hc
    intro hcn
    rw [hcn] at this
    simp [isPySpace] at this

/-- Re-running the section pipeline on the blank-line join of the retained
sections retains exactly the same sections. -/
theorem clean_sections_join (content : String) :
    clean_sections (pyJoin "\n\n" (clean_sections content)) = clean_sections content := by
  cases hP : clean_sections content with
  | nil => decide
  | cons p rest =>
    rw [← hP]
    have hsplit : pySplit (pyJoin "\n\n" (clean_sections content)) "\n\n" =
        clean_sections content := by
      unfold pySplit pyJoin
      have hd : ("\n\n" : String).data = nl2 := rfl
      rw [hd]
      rw [splitList_joinList_nl2 ((clean_sections content).map String.data)
        (by rw [hP]; simp)
        ?_]
      · rw [List.map_map]
        exact List.map_id'' (fun s => rfl) _
      · intro e he
        obtain ⟨s, hs, rfl⟩ := List.mem_map.mp he
        obtain ⟨-, -, hne, -, hinf, hlast⟩ := clean_sections_mem hs
        refine ⟨hinf, ?_, hlast⟩
        intro hnil
        exact hne (string_eq_empty_of_data_nil hnil)
    unfold clean_sections at hsplit ⊢
    rw [hsplit]
    apply cleanLoop_id
    · exact cleanLoop_nodup _ _
    · intro s hs
      obtain ⟨hfc, hrj, hne, hstrip, -, -⟩ := @clean_sections_mem content s hs
      exact ⟨hstrip, hne, hfc, hrj, by simp⟩

/-! ## Lemmas: the line loop of `extract_final_review_only` -/

/-- Once the narrative has started, every remaining line is appended in
stripped form. -/
theorem extractGo_started : ∀ (ls acc : List String),
    extractGo true acc ls = acc ++ ls.map pyStrip := by
  intro ls
  induction ls with
  | nil => intro acc; simp [extractGo]
  | cons l rest ih =>
    intro acc
    rw [extractGo]
    simp only [Bool.true_eq_false, false_and, if_false, if_pos rfl]
    rw [ih]
    simp

/-! ## Lemmas: `extract_message_content` -/

theorem msgSize_pos : ∀ m : Msg, 1 ≤ msgSize m := by
  intro m
  cases m with
  | mk c s t mm msgs inner =>
    rw [msgSize]
    omega

theorem msgSize_le_of_mem : ∀ {l : List Msg} {x : Msg}, x ∈ l → msgSize x ≤ msgListSize l := by
  intro l
  induction l with
  | nil => intro x hx; cases hx
  | cons m ms ih =>
    intro x hx
    rw [msgListSize]
    rcases List.mem_cons.mp hx with rfl | hx'
    · omega
    · have := ih hx'
      omega

theorem extractF_congr : ∀ (f₁ f₂ : Nat) (m : Msg), msgSize m ≤ f₁ → msgSize m ≤ f₂ →
    extractF f₁ m = extractF f₂ m := by
  intro f₁
  induction f₁ with
  | zero =>
    intro f₂ m h₁ _
    have := msgSize_pos m
    omega
  | succ f₁' ih =>
    intro f₂ m h₁ h₂
    cases m with
    | mk c s t mm msgs inner =>
      cases f₂ with
      | zero =>
        have := msgSize_pos (Msg.mk c s t mm msgs inner)
        omega
      | succ f₂' =>
        have hsz : msgSize (Msg.mk c s t mm msgs inner) =
            1 + msgListSize msgs + msgListSize inner := by rw [msgSize]
        rw [extractF, extractF]
        by_cases hc : optTruthy c = true
        · rw [if_pos hc, if_pos hc]
        · rw [if_neg hc, if_neg hc]
          by_cases hs : optTruthy s = true
          · rw [if_pos hs, if_pos hs]
          · rw [if_neg hs, if_neg hs]
            cases hml : msgs.getLast? with
            | some lm =>
              have hle : msgSize lm ≤ msgListSize msgs :=
                msgSize_le_of_mem (List.mem_of_getLast?_eq_some hml)
              exact ih f₂' lm (by omega) (by omega)
            | none =>
              cases hil : inner.getLast? with
              | some lm =>
                have hle : msgSize lm ≤ msgListSize inner :=
                  msgSize_le_of_mem (List.mem_of_getLast?_eq_some hil)
                exact ih f₂' lm (by omega) (by omega)
              | none => rfl

/-- One-step unfolding of `extract_message_content` on an explicit message. -/
theorem extract_message_content_eq (c s t mm : Option String) (msgs inner : List Msg) :
    extract_message_content (.mk c s t mm msgs inner) =
      if optTruthy c = true then optVal c
      else if optTruthy s = true then optVal s
      else
        match msgs.getLast? with
        | some lastMsg => extract_message_content lastMsg
        | none =>
          match inner.getLast? with
          | some lastMsg => extract_message_content lastMsg
          | none =>
            if optTruthy t = true then optVal t
            else if optTruthy mm = true then optVal mm
            else "" := by
  have hsz : msgSize (Msg.mk c s t mm msgs inner) =
      1 + msgListSize msgs + msgListSize inner := by rw [msgSize]
  show extractF (msgSize (Msg.mk c s t mm msgs inner)) _ = _
  rw [hsz]
  have h1 : 1 + msgListSize msgs + msgListSize inner =
      (msgListSize msgs + msgListSize inner) + 1 := by omega
  rw [h1, extractF]
  by_cases hc : optTruthy c = true
  · rw [if_pos hc, if_pos hc]
  · rw [if_neg hc, if_neg hc]
    by_cases hs : optTruthy s = true
    · rw [if_pos hs, if_pos hs]
    · rw [if_neg hs, if_neg hs]
      cases hml : msgs.getLast? with
      | some lm =>
        have hle : msgSize lm ≤ msgListSize msgs :=
          msgSize_le_of_mem (List.mem_of_getLast?_eq_some hml)
        exact extractF_congr _ _ lm (by omega) (Nat.le_refl _)
      | none =>
        cases hil : inner.getLast? with
        | some lm =>
          have hle : msgSize lm ≤ msgListSize inner :=
            msgSize_le_of_mem (List.mem_of_getLast?_eq_some hil)
          exact extractF_congr _ _ lm (by omega) (Nat.le_refl _)
        | none => rfl

/-! ## Lemmas: the marker tables -/

theorem fcm_of_marker {s ind : String} (hmem : ind ∈ function_indicators)
    (h : strContains s ind = true) : is_function_call_message s = true := by
  have hne : s ≠ "" := by
    rintro rfl
    fin_cases hmem <;> exact absurd h (by decide)
  unfold is_function_call_message
  rw [if_neg hne]
  exact List.any_eq_true.mpr ⟨ind, hmem, h⟩

theorem rjd_of_marker {s ind : String} (hmem : ind ∈ json_indicators)
    (h : strContains s ind = true) : is_raw_json_data s = true := by
  have hne : s ≠ "" := by
    rintro rfl
    fin_cases hmem <;> exact absurd h (by decide)
  unfold is_raw_json_data
  rw [if_neg hne]
  exact List.any_eq_true.mpr ⟨ind, hmem, h⟩

/-! ## Lemmas: the stream-consumption loop of `run_review` -/

/-- The collected contents are the non-empty normalizations, in order,
independent of the incoming message count. -/
theorem consumeLoop_contents : ∀ (msgs : List Msg) (count : Nat),
    (consumeLoop count msgs).1 =
      (msgs.map extract_message_content).filter (fun s => s != "") := by
  intro msgs
  induction msgs with
  | nil => intro count; simp [consumeLoop]
  | cons m rest ih =>
    intro count
    rw [consumeLoop]
    simp only [List.map_cons, List.filter_cons]
    by_cases h : extract_message_content m ≠ ""
    · rw [if_pos h, if_pos (by simpa [bne_iff_ne] using h)]
      simp [ih]
    · rw [if_neg h]
      push_neg at h
      rw [if_neg (by simp [h])]
      simp only [List.nil_append]
      exact ih _

/-! ## Concrete fixtures used by witnesses and counterexamples -/

/-- A plain narrative message. -/
def msgA : Msg := .mk (some "Intro text") none none none [] []

/-- A message carrying the final review. -/
def msgB : Msg := .mk (some "Literature Review:\n- Paper A") none none none [] []

/-- A terminating message. -/
def msgC : Msg := .mk (some "TERMINATE") none none none [] []

/-- A team whose stream yields three messages and finishes normally. -/
def team3 : Team := ⟨fun _ => ([msgA, msgB, msgC], none)⟩

/-- Team construction succeeding with `team3`. -/
def createTeam3 : String → String → Except String Team := fun _ _ => .ok team3

/-- A team whose stream yields one message and then raises. -/
def team1f : Team := ⟨fun _ => ([msgA], some "Connection error")⟩

/-- Team construction succeeding with `team1f`. -/
def createTeam1f : String → String → Except String Team := fun _ _ => .ok team1f

/-- Team construction that raises (e.g. a credential error). -/
def createTeamFail : String → String → Except String Team :=
  fun _ _ => .error "Invalid API key"

/-- A sample configuration. -/
def cfgFL : ReviewConfig := { topic := "federated learning", max_results := 3 }

/-- Inside the loop, a 3-message stream emits Searching(60) then twice
Summarizing(80), whatever the message contents. -/
theorem consumeLoop_events_three (a b c : Msg) :
    (consumeLoop 0 [a, b, c]).2 =
      [⟨.searching, "Papers found, starting analysis...", 60⟩,
       ⟨.summarizing, "Generating final review...", 80⟩,
       ⟨.summarizing, "Generating final review...", 80⟩] := rfl

/-- Inside the loop, a 1-message stream emits exactly Searching(60). -/
theorem consumeLoop_events_one (a : Msg) :
    (consumeLoop 0 [a]).2 =
      [⟨.searching, "Papers found, starting analysis...", 60⟩] := rfl

/-! ## Claims -/

/-- C1 (counterexample): for a successful run over a 3-message stream the
emitted (status, percent) sequence is NOT the claimed 6-element sequence —
the code also emits Summarizing(50) before the loop (line 241), giving a
7-element sequence. -/
theorem C1_progress_counterexample :
    ((run_review createTeam3 "k" cfgFL 5).1.map
        (fun e => (e.status, e.progress_percent)) =
      [(.initializing, 10), (.searching, 25), (.summarizing, 50), (.searching, 60),
       (.summarizing, 80), (.summarizing, 80), (.completed, 100)]) ∧
    ((run_review createTeam3 "k" cfgFL 5).1.map
        (fun e => (e.status, e.progress_percent)) ≠
      [(.initializing, 10), (.searching, 25), (.searching, 60),
       (.summarizing, 80), (.summarizing, 80), (.completed, 100)]) := by
  constructor
  · decide
  · decide

/-- C1 (amended): for every successful run over a 3-message stream the
(status, percent) sequence is exactly
[Initializing(10), Searching(25), Summarizing(50), Searching(60),
 Summarizing(80), Summarizing(80), Completed(100)], and for every run that
raises during stream consumption after exactly 1 message it is exactly
[Initializing(10), Searching(25), Summarizing(50), Searching(60), Error(0)]. -/
theorem run_review_progress_sequences
    (create_team : String → String → Except String Team)
    (key : String) (config : ReviewConfig) (elapsed : Nat) (team : Team)
    (hct : create_team config.model_name key = .ok team) :
    (∀ msgs, team.run_stream (review_task config) = (msgs, none) → msgs.length = 3 →
      (run_review create_team key config elapsed).1.map
          (fun e => (e.status, e.progress_percent)) =
        [(.initializing, 10), (.searching, 25), (.summarizing, 50), (.searching, 60),
         (.summarizing, 80), (.summarizing, 80), (.completed, 100)]) ∧
    (∀ msgs e, team.run_stream (review_task config) = (msgs, some e) → msgs.length = 1 →
      (run_review create_team key config elapsed).1.map
          (fun e => (e.status, e.progress_percent)) =
        [(.initializing, 10), (.searching, 25), (.summarizing, 50), (.searching, 60),
         (.error, 0)]) := by
  constructor
  · intro msgs hstream hlen
    obtain ⟨a, b, c, rfl⟩ := List.length_eq_three.mp hlen
    simp only [run_review, hct, hstream]
    simp [consumeLoop_events_three]
  · intro msgs e hstream hlen
    obtain ⟨a, rfl⟩ := List.length_eq_one.mp hlen
    simp only [run_review, hct, hstream]
    simp [consumeLoop_events_one]

/-- C1 (witness): the amended progress sequences at the concrete fixtures. -/
theorem C1_progress_witness :
    ((run_review createTeam3 "k" cfgFL 5).1.map
        (fun e => (e.status, e.progress_percent)) =
      [(.initializing, 10), (.searching, 25), (.summarizing, 50), (.searching, 60),
       (.summarizing, 80), (.summarizing, 80), (.completed, 100)]) ∧
    ((run_review createTeam1f "k" cfgFL 5).1.map
        (fun e => (e.status, e.progress_percent)) =
      [(.initializing, 10), (.searching, 25), (.summarizing, 50), (.searching, 60),
       (.error, 0)]) :=
  ⟨(run_review_progress_sequences createTeam3 "k" cfgFL 5 team3 rfl).1
      [msgA, msgB, msgC] rfl rfl,
   (run_review_progress_sequences createTeam1f "k" cfgFL 5 team1f rfl).2
      [msgA] "Connection error" rfl rfl⟩

/-- C2: on any exception from team construction or stream consumption,
`run_review` returns (never raises — the model is a total function) a failed
`ReviewResult` with the fixed error prefix, the elapsed time, and the echoed
config, and the final emitted event is Error(0) with the same message. -/
theorem run_review_error_handling
    (create_team : String → String → Except String Team)
    (key : String) (config : ReviewConfig) (elapsed : Nat) :
    (∀ e, create_team config.model_name key = .error e →
      (run_review create_team key config elapsed).2 =
        { success := false, error_message := "Error during literature review: " ++ e,
          execution_time := elapsed, config := some config } ∧
      (run_review create_team key config elapsed).1.getLast? =
        some ⟨.error, "Error during literature review: " ++ e, 0⟩) ∧
    (∀ team msgs e, create_team config.model_name key = .ok team →
      team.run_stream (review_task config) = (msgs, some e) →
      (run_review create_team key config elapsed).2 =
        { success := false, error_message := "Error during literature review: " ++ e,
          execution_time := elapsed, config := some config } ∧
      (run_review create_team key config elapsed).1.getLast? =
        some ⟨.error, "Error during literature review: " ++ e, 0⟩) := by
  constructor
  · intro e hct
    refine ⟨?_, ?_⟩ <;> simp [run_review, hct]
  · intro team msgs e hct hstream
    constructor
    · simp only [run_review, hct, hstream]
    · simp only [run_review, hct, hstream]
      rw [List.getLast?_concat]

/-- C2 (witness): the error handling at the two concrete failing fixtures. -/
theorem C2_error_witness :
    ((run_review createTeamFail "k" cfgFL 9).2 =
      { success := false,
        error_message := "Error during literature review: Invalid API key",
        execution_time := 9, config := some cfgFL } ∧
     (run_review createTeamFail "k" cfgFL 9).1.getLast? =
       some ⟨.error, "Error during literature review: Invalid API key", 0⟩) ∧
    ((run_review createTeam1f "k" cfgFL 9).2 =
      { success := false,
        error_message := "Error during literature review: Connection error",
        execution_time := 9, config := some cfgFL } ∧
     (run_review createTeam1f "k" cfgFL 9).1.getLast? =
       some ⟨.error, "Error during literature review: Connection error", 0⟩) :=
  ⟨(run_review_error_handling createTeamFail "k" cfgFL 9).1 "Invalid API key" rfl,
   (run_review_error_handling createTeam1f "k" cfgFL 9).2 team1f [msgA]
     "Connection error" rfl rfl⟩

/-- C3 (counterexample): for the input blocks ["a\n b", "a\nb"] the final
output of `clean_content` contains two exactly-equal sections — the
narrative-extraction step strips each line, collapsing the two distinct
retained sections into equal text. -/
theorem C3_duplicate_counterexample :
    pySplit (clean_content (pyJoin "\n\n" ["a\n b", "a\nb"])) "\n\n" =
      ["a\nb", "a\nb"] ∧
    ¬ (pySplit (clean_content (pyJoin "\n\n" ["a\n b", "a\nb"])) "\n\n").Nodup := by
  constructor
  · decide
  · decide

/-- C3 (amended): the retained sections computed by `clean_content` contain
no section classified as noise by either classifier, no two equal sections,
and preserve input order (they form a sublist of the stripped input
sections); for the blocks ["A", "A", "B"] the final output is "A" followed by
"B" exactly once each.  (After the final narrative-extraction step,
exact-duplicate sections can reappear in the returned string.) -/
theorem clean_content_retained_sections :
    (∀ content : String,
      (∀ s ∈ clean_sections content,
        is_function_call_message s = false ∧ is_raw_json_data s = false ∧ s ≠ "") ∧
      (clean_sections content).Nodup ∧
      List.Sublist (clean_sections content) ((pySplit content "\n\n").map pyStrip)) ∧
    clean_content (pyJoin "\n\n" ["A", "A", "B"]) = "A\n\nB" := by
  constructor
  · intro content
    refine ⟨?_, cleanLoop_nodup _ _, cleanLoop_sublist _ _⟩
    intro s hs
    obtain ⟨-, h1, h2, h3, -⟩ := cleanLoop_mem _ _ _ hs
    exact ⟨h1, h2, h3⟩
  · decide

/-- C3 (witness): the retained-section guarantees at a concrete input. -/
theorem C3_retained_witness :
    (is_function_call_message "A" = false ∧ is_raw_json_data "A" = false ∧
      ("A" : String) ≠ "") ∧
    (clean_sections "A\n\nA\n\nB").Nodup ∧
    List.Sublist (clean_sections "A\n\nA\n\nB")
      ((pySplit "A\n\nA\n\nB" "\n\n").map pyStrip) :=
  ⟨(clean_content_retained_sections.1 "A\n\nA\n\nB").1 "A" (by decide),
   (clean_content_retained_sections.1 "A\n\nA\n\nB").2.1,
   (clean_content_retained_sections.1 "A\n\nA\n\nB").2.2⟩

/-- C4 (counterexample): after the narrative start, lines are NOT kept
verbatim — `extract_final_review_only` strips each line's leading and
trailing whitespace ("  a  " comes out as "a"). -/
theorem C4_verbatim_counterexample :
    extract_final_review_only "X\n  a  " = "X\na" ∧
    ("X\na" : String) ≠ "X\n  a  " := by
  constructor
  · decide
  · decide

/-- C4 (amended): once the narrative has started, every subsequent line of
the input (including blanks) is appended to the output **stripped of its
leading and trailing whitespace** (not verbatim), through end of input; the
function then joins the lines and strips the result. -/
theorem extract_keeps_stripped_lines :
    (∀ acc ls, extractGo true acc ls = acc ++ ls.map pyStrip) ∧
    (∀ content : String, content ≠ "" →
      extract_final_review_only content =
        pyStrip (pyJoin "\n" (extractGo false [] (pySplit content "\n")))) := by
  constructor
  · intro acc ls
    exact extractGo_started ls acc
  · intro content hne
    unfold extract_final_review_only
    rw [if_neg hne]

/-- C4 (witness): the stripped-line behavior at concrete inputs. -/
theorem C4_stripped_witness :
    extractGo true ["X"] ["  a  ", " b"] = ["X"] ++ (["  a  ", " b"].map pyStrip) ∧
    extract_final_review_only "X\n  a  " =
      pyStrip (pyJoin "\n" (extractGo false [] (pySplit "X\n  a  " "\n"))) :=
  ⟨extract_keeps_stripped_lines.1 ["X"] ["  a  ", " b"],
   extract_keeps_stripped_lines.2 "X\n  a  " (by decide)⟩

/-- C5: `extract_message_content` resolves the first non-empty field in the
order content, summary, last of `messages` (recursively), last of
`inner_messages` (recursively), text, message, and returns "" when none
matches; the model is a total function, so no input makes it raise. -/
theorem extract_message_content_resolution (c s t mm : Option String)
    (msgs inner : List Msg) :
    (optTruthy c = true →
      extract_message_content (.mk c s t mm msgs inner) = optVal c) ∧
    (optTruthy c = false → optTruthy s = true →
      extract_message_content (.mk c s t mm msgs inner) = optVal s) ∧
    (optTruthy c = false → optTruthy s = false →
      ∀ lm, msgs.getLast? = some lm →
      extract_message_content (.mk c s t mm msgs inner) =
        extract_message_content lm) ∧
    (optTruthy c = false → optTruthy s = false → msgs = [] →
      ∀ lm, inner.getLast? = some lm →
      extract_message_content (.mk c s t mm msgs inner) =
        extract_message_content lm) ∧
    (optTruthy c = false → optTruthy s = false → msgs = [] → inner = [] →
      optTruthy t = true →
      extract_message_content (.mk c s t mm msgs inner) = optVal t) ∧
    (optTruthy c = false → optTruthy s = false → msgs = [] → inner = [] →
      optTruthy t = false → optTruthy mm = true →
      extract_message_content (.mk c s t mm msgs inner) = optVal mm) ∧
    (optTruthy c = false → optTruthy s = false → msgs = [] → inner = [] →
      optTruthy t = false → optTruthy mm = false →
      extract_message_content (.mk c s t mm msgs inner) = "") := by
  refine ⟨?_, ?_, ?_, ?_, ?_, ?_, ?_⟩
  · intro hc
    rw [extract_message_content_eq, if_pos hc]
  · intro hc hs
    rw [extract_message_content_eq, if_neg (by simp [hc]), if_pos hs]
  · intro hc hs lm hlm
    rw [extract_message_content_eq, if_neg (by simp [hc]), if_neg (by simp [hs]), hlm]
  · intro hc hs hmsgs lm hlm
    subst hmsgs
    rw [extract_message_content_eq, if_neg (by simp [hc]), if_neg (by simp [hs])]
    simp only [List.getLast?_nil]
    rw [hlm]
  · intro hc hs hmsgs hinner ht
    subst hmsgs; subst hinner
    rw [extract_message_content_eq, if_neg (by simp [hc]), if_neg (by simp [hs])]
    simp only [List.getLast?_nil]
    rw [if_pos ht]
  · intro hc hs hmsgs hinner ht hmm
    subst hmsgs; subst hinner
    rw [extract_message_content_eq, if_neg (by simp [hc]), if_neg (by simp [hs])]
    simp only [List.getLast?_nil]
    rw [if_neg (by simp [ht]), if_pos hmm]
  · intro hc hs hmsgs hinner ht hmm
    subst hmsgs; subst hinner
    rw [extract_message_content_eq, if_neg (by simp [hc]), if_neg (by simp [hs])]
    simp only [List.getLast?_nil]
    rw [if_neg (by simp [ht]), if_neg (by simp [hmm])]

/-- C5 (witness): the resolution order at concrete messages. -/
theorem C5_resolution_witness :
    extract_message_content (.mk (some "payload") (some "sum") none none [] []) =
      "payload" ∧
    extract_message_content (.mk (some "") (some "sum") none none [] []) = "sum" ∧
    extract_message_content
      (.mk none none none none [.mk (some "x") none none none [] [],
        .mk (some "last") none none none [] []] []) =
      extract_message_content (.mk (some "last") none none none [] []) ∧
    extract_message_content (.mk none (some "") (some "txt") none [] []) = "txt" ∧
    extract_message_content (.mk none none none none [] []) = "" :=
  ⟨(extract_message_content_resolution (some "payload") (some "sum") none none [] []).1
      (by decide),
   (extract_message_content_resolution (some "") (some "sum") none none [] []).2.1
      (by decide) (by decide),
   (extract_message_content_resolution none none none none
      [.mk (some "x") none none none [] [], .mk (some "last") none none none [] []]
      []).2.2.1 (by decide) (by decide) (.mk (some "last") none none none [] []) rfl,
   (extract_message_content_resolution none (some "") (some "txt") none [] []).2.2.2.2.1
      (by decide) (by decide) rfl rfl (by decide),
   (extract_message_content_resolution none none none none [] []).2.2.2.2.2.2
      (by decide) (by decide) rfl rfl (by decide) (by decide)⟩

/-- C6: both classifiers return false on the empty string and on any
non-string value, and any string containing a marker from the respective
fixed table is classified as noise. -/
theorem classifier_guards_and_markers :
    (is_function_call_message_val (.str "") = false ∧
     is_raw_json_data_val (.str "") = false ∧
     is_function_call_message_val .other = false ∧
     is_raw_json_data_val .other = false) ∧
    (∀ s ind, ind ∈ function_indicators → strContains s ind = true →
      is_function_call_message_val (.str s) = true) ∧
    (∀ s ind, ind ∈ json_indicators → strContains s ind = true →
      is_raw_json_data_val (.str s) = true) := by
  refine ⟨by decide, ?_, ?_⟩
  · intro s ind hmem h
    exact fcm_of_marker hmem h
  · intro s ind hmem h
    exact rjd_of_marker hmem h

/-- C6 (witness): the marker implications at concrete strings. -/
theorem C6_classifier_witness :
    is_function_call_message_val (.str "some text call_id=42 more") = true ∧
    is_raw_json_data_val (.str "results: \x7b\x27title\x27: \x27Foo\x27\x7d") = true :=
  ⟨classifier_guards_and_markers.2.1 "some text call_id=42 more" "call_id="
      (by decide) (by decide),
   classifier_guards_and_markers.2.2 "results: \x7b\x27title\x27: \x27Foo\x27\x7d"
      "\x7b\x27title\x27:" (by decide) (by decide)⟩

/-- C7: every successful run returns success, the cleaned aggregation of the
stream's non-empty normalized messages, the original config, and
`papers_found = config.max_results`. -/
theorem run_review_success_result
    (create_team : String → String → Except String Team)
    (key : String) (config : ReviewConfig) (elapsed : Nat) (team : Team)
    (hct : create_team config.model_name key = .ok team)
    (msgs : List Msg)
    (hstream : team.run_stream (review_task config) = (msgs, none)) :
    (run_review create_team key config elapsed).2 =
      { success := true,
        content := clean_content (pyJoin "\n\n"
          ((msgs.map extract_message_content).filter (fun s => s != ""))),
        execution_time := elapsed, config := some config,
        papers_found := config.max_results } := by
  simp only [run_review, hct, hstream]
  rw [← consumeLoop_contents msgs 0]

/-- C7 (witness): the success result at the concrete 3-message fixture. -/
theorem C7_success_witness :
    (run_review createTeam3 "k" cfgFL 5).2 =
      { success := true,
        content := clean_content (pyJoin "\n\n"
          (([msgA, msgB, msgC].map extract_message_content).filter (fun s => s != ""))),
        execution_time := 5, config := some cfgFL,
        papers_found := cfgFL.max_results } :=
  run_review_success_result createTeam3 "k" cfgFL 5 team3 rfl [msgA, msgB, msgC] rfl

/-- C8 (counterexample): applying `clean_content` to its own output does not
preserve the retained-section set — narrative extraction turns the single
section "a\n \n \nb" into "a\n\n\nb", which re-splits into new sections. -/
theorem C8_idempotence_counterexample :
    ("b" ∈ clean_sections (clean_content "a\n \n \nb") ∧
     "b" ∉ clean_sections "a\n \n \nb") ∧
    clean_content (clean_content "a\n \n \nb") ≠ clean_content "a\n \n \nb" := by
  refine ⟨⟨?_, ?_⟩, ?_⟩
  · decide
  · decide
  · decide

/-- C8 (amended): aggregation is idempotent at the retained-section level —
re-running the section pipeline on the blank-line join of the retained
sections retains exactly the same sections.  (Full `clean_content` is not
idempotent: its final narrative extraction strips whitespace-only lines,
which can create new section boundaries.) -/
theorem clean_sections_idempotent (content : String) :
    clean_sections (pyJoin "\n\n" (clean_sections content)) =
      clean_sections content :=
  clean_sections_join content

/-- C9: the bare markers `pdf_url`, `published` and `authors` match anywhere
in a string — including ordinary prose — so any section containing them is
classified as tool noise and dropped from the aggregated report. -/
theorem bare_markers_drop_prose :
    (∀ s, strContains s "pdf_url" = true → is_function_call_message s = true) ∧
    (∀ s, strContains s "published" = true → is_function_call_message s = true) ∧
    (∀ s, strContains s "authors" = true → is_function_call_message s = true) ∧
    (∀ content s, s ∈ clean_sections content →
      is_function_call_message s = false) ∧
    clean_content "The authors argue that X.\n\nSome other narrative." =
      "Some other narrative." := by
  refine ⟨?_, ?_, ?_, ?_, by decide⟩
  · intro s h
    exact fcm_of_marker (by decide) h
  · intro s h
    exact fcm_of_marker (by decide) h
  · intro s h
    exact fcm_of_marker (by decide) h
  · intro content s hs
    exact (cleanLoop_mem _ _ _ hs).2.1

/-- C9 (witness): narrative prose mentioning "the authors" is classified as
noise and absent from the retained sections. -/
theorem C9_prose_witness :
    is_function_call_message "The authors argue that X." = true ∧
    is_function_call_message "Some other narrative." = false :=
  ⟨bare_markers_drop_prose.2.2.1 "The authors argue that X." (by decide),
   bare_markers_drop_prose.2.2.2.1
     "The authors argue that X.\n\nSome other narrative." "Some other narrative."
     (by decide)⟩

/-- C10: the run's observable behavior does not depend on `config.max_turns`
or `config.api_key` — two configs agreeing on topic, max_results and
model_name produce identical progress sequences and identical results up to
the echoed config field. -/
theorem run_review_config_noninterference
    (create_team : String → String → Except String Team)
    (key : String) (c1 c2 : ReviewConfig) (elapsed : Nat)
    (ht : c1.topic = c2.topic) (hm : c1.max_results = c2.max_results)
    (hn : c1.model_name = c2.model_name) :
    (run_review create_team key c1 elapsed).1 =
      (run_review create_team key c2 elapsed).1 ∧
    (run_review create_team key c1 elapsed).2.success =
      (run_review create_team key c2 elapsed).2.success ∧
    (run_review create_team key c1 elapsed).2.content =
      (run_review create_team key c2 elapsed).2.content ∧
    (run_review create_team key c1 elapsed).2.error_message =
      (run_review create_team key c2 elapsed).2.error_message ∧
    (run_review create_team key c1 elapsed).2.execution_time =
      (run_review create_team key c2 elapsed).2.execution_time ∧
    (run_review create_team key c1 elapsed).2.papers_found =
      (run_review create_team key c2 elapsed).2.papers_found := by
  obtain ⟨t1, mr1, mn1, mt1, ak1⟩ := c1
  obtain ⟨t2, mr2, mn2, mt2, ak2⟩ := c2
  simp only at ht hm hn
  subst ht; subst hm; subst hn
  cases hct : create_team mn1 key with
  | error e =>
    simp [run_review, hct]
  | ok team =>
    simp only [run_review, hct]
    have hrt : review_task ⟨t1, mr1, mn1, mt2, ak2⟩ =
        review_task ⟨t1, mr1, mn1, mt1, ak1⟩ := rfl
    rw [hrt]
    cases hs2 : (team.run_stream (review_task ⟨t1, mr1, mn1, mt1, ak1⟩)).2 with
    | some e =>
      simp only [hs2]
      simp
    | none =>
      simp only [hs2]
      simp

/-- C10 (witness): two configs differing only in `max_turns` and `api_key`
produce the same observable run. -/
theorem C10_noninterference_witness :
    (run_review createTeam3 "k" cfgFL 5).1 =
      (run_review createTeam3 "k"
        { topic := "federated learning", max_results := 3, max_turns := 9,
          api_key := some "other" } 5).1 ∧
    (run_review createTeam3 "k" cfgFL 5).2.success =
      (run_review createTeam3 "k"
        { topic := "federated learning", max_results := 3, max_turns := 9,
          api_key := some "other" } 5).2.success ∧
    (run_review createTeam3 "k" cfgFL 5).2.content =
      (run_review createTeam3 "k"
        { topic := "federated learning", max_results := 3, max_turns := 9,
          api_key := some "other" } 5).2.content ∧
    (run_review createTeam3 "k" cfgFL 5).2.error_message =
      (run_review createTeam3 "k"
        { topic := "federated learning", max_results := 3, max_turns := 9,
          api_key := some "other" } 5).2.error_message ∧
    (run_review createTeam3 "k" cfgFL 5).2.execution_time =
      (run_review createTeam3 "k"
        { topic := "federated learning", max_results := 3, max_turns := 9,
          api_key := some "other" } 5).2.execution_time ∧
    (run_review createTeam3 "k" cfgFL 5).2.papers_found =
      (run_review createTeam3 "k"
        { topic := "federated learning", max_results := 3, max_turns := 9,
          api_key := some "other" } 5).2.papers_found :=
  run_review_config_noninterference createTeam3 "k" cfgFL
    { topic := "federated learning", max_results := 3, max_turns := 9,
      api_key := some "other" } 5 rfl rfl rfl

end LitReview
